import Mathlib

/-!
# Verification of the CodeAlpha_MusicPlayer server

Shallow embedding of the Express server (`server.js`): the JSON-backed
store of tracks and playlists, the route handlers that mutate it, the
filename-hint metadata parser, and the range-aware streaming endpoint.
JavaScript strings are modelled as Lean `String`/`List Char`; JavaScript
numbers arising from `parseInt` are modelled as `Option Int` with `none`
playing the role of `NaN`.  File-system state for the streaming endpoint
is an association list from full path to byte contents.
-/

namespace MusicPlayer

/-! ## JavaScript primitives -/

/-- Characters matched by `\s` in a JavaScript regex (the ASCII ones;
the filenames and headers in play contain no exotic whitespace). -/
def jsWhitespace (c : Char) : Bool :=
  c = ' ' || c = '\t' || c = '\n' || c = '\r' || c = '\x0b' || c = '\x0c'

/-- Characters matched by `.` in a JavaScript regex without the `s` flag:
everything except a line terminator. -/
def jsDot (c : Char) : Bool := c ≠ '\n'

/-- JavaScript string truthiness: every string except `""` is truthy. -/
def strTruthy (s : String) : Bool := s ≠ ""

/-- `String.prototype.trim`: strip leading and trailing whitespace. -/
def jsTrim (s : String) : String :=
  String.mk (((s.data.dropWhile jsWhitespace).reverse.dropWhile jsWhitespace).reverse)

/-- `a || b` on JavaScript strings: `a` when truthy, else `b`. -/
def jsOr (a b : String) : String := if strTruthy a then a else b

/-- A JavaScript number that may be `NaN` (`none`). -/
def JSNum := Option Int

instance : DecidableEq JSNum := inferInstanceAs (DecidableEq (Option Int))

instance : Repr JSNum := inferInstanceAs (Repr (Option Int))

/-- Addition on JavaScript numbers: `NaN` is absorbing. -/
def jsAdd (a b : JSNum) : JSNum :=
  match a, b with
  | some x, some y => some (x + y)
  | _, _ => none

/-- Subtraction on JavaScript numbers: `NaN` is absorbing. -/
def jsSub (a b : JSNum) : JSNum :=
  match a, b with
  | some x, some y => some (x - y)
  | _, _ => none

def digitsVal (l : List Char) : Nat :=
  l.foldl (fun acc c => 10 * acc + (c.toNat - '0'.toNat)) 0

/-- `parseInt(s, 10)`: skip leading whitespace, read an optional sign and
then the maximal run of decimal digits; no digits means `NaN`. -/
def parseIntJS (l : List Char) : JSNum :=
  let l₁ := l.dropWhile jsWhitespace
  let (sgn, l₂) : Int × List Char :=
    match l₁ with
    | '-' :: r => (-1, r)
    | '+' :: r => (1, r)
    | _ => (1, l₁)
  let ds := l₂.takeWhile Char.isDigit
  if ds.isEmpty then none else some (sgn * (digitsVal ds : Int))

/-- Render a JavaScript number into a header string; `NaN` prints as `"NaN"`. -/
def jsNumToString (n : JSNum) : String :=
  match n with
  | some x => Int.repr x
  | none => "NaN"

/-- `String.prototype.split(c)`: split at every occurrence of the single
character `c`; the empty string yields `[""]`. -/
def splitOnChar (c : Char) : List Char → List (List Char)
  | [] => [[]]
  | x :: rest =>
    if x = c then [] :: splitOnChar c rest
    else
      match splitOnChar c rest with
      | h :: t => (x :: h) :: t
      | [] => [[x]]

/-- `String.prototype.replace(pat, '')` with a non-global literal pattern:
remove the first occurrence of `pat`. -/
def dropFirstOcc (pat : List Char) : List Char → List Char
  | [] => []
  | c :: rest =>
    if pat.isPrefixOf (c :: rest) then (c :: rest).drop pat.length
    else c :: dropFirstOcc pat rest

/-! ## The filename-hint parser (`parseFromFilename`)

The source matches the stem against the JavaScript regex
`(.*?)-(.*?)(?:\s*\[(.*?)\])?$` (no flags).  The matcher below executes
exactly that pattern: leftmost match start, lazy `.*?` groups (shortest
first), greedy optional genre group, `.` not matching a newline, `$`
anchoring at the end. -/

/-- Match `\s*\[(.*?)\]$` against `l`, returning the captured genre.
Greedy `\s*` must stop at a `[` (which is not whitespace), and the lazy
genre body together with the `$` anchor force the bracket to be the last
character of the string. -/
def matchGenreTail (l : List Char) : Option String :=
  match l.dropWhile jsWhitespace with
  | '[' :: rest =>
    match rest.reverse with
    | ']' :: grev =>
      if (grev.reverse).all jsDot then some (String.mk grev.reverse) else none
    | _ => none
  | _ => none

/-- Match `(.*?)(?:\s*\[(.*?)\])?$` against `r`, the lazy title group
accumulated (reversed) in `acc`: at each position first try the greedy
optional genre group, then (only at the very end) skip it, else extend
the title by one `.`-matchable character. -/
def matchTail (acc : List Char) : List Char → Option (String × Option String)
  | [] =>
    match matchGenreTail [] with
    | some g => some (String.mk acc.reverse, some g)
    | none => some (String.mk acc.reverse, none)
  | c :: rest =>
    match matchGenreTail (c :: rest) with
    | some g => some (String.mk acc.reverse, some g)
    | none => if jsDot c then matchTail (c :: acc) rest else none

/-- Try a match of the whole pattern beginning at the current position:
the lazy artist group (accumulated reversed in `acc`) tries the literal
hyphen at each position before extending. -/
def matchHere (acc : List Char) : List Char → Option (String × String × Option String)
  | [] => none
  | c :: rest =>
    (if c = '-' then
      match matchTail [] rest with
      | some (t, g) => some (String.mk acc.reverse, t, g)
      | none => none
    else none).orElse
    (fun _ => if jsDot c then matchHere (c :: acc) rest else none)

/-- `String.prototype.match(re)`: try each start position left to right. -/
def regexMatch3 : List Char → Option (String × String × Option String)
  | [] => none
  | s@(_ :: rest) => (matchHere [] s).orElse (fun _ => regexMatch3 rest)

/-- `name.replace(/\.[^/.]+$/, '')`: strip a final `.ext` whose extension
is a nonempty run of characters other than `.` and `/`. -/
def stripExt (s : String) : String :=
  let r := s.data.reverse
  let ext := r.takeWhile (fun c => c ≠ '.' && c ≠ '/')
  match r.drop ext.length with
  | '.' :: rest => if ext.isEmpty then s else String.mk rest.reverse
  | _ => s

/-- The hint record `{title, artist, genre}` returned by the parser. -/
structure Meta3 where
  title : String
  artist : String
  genre : String
  deriving Repr, DecidableEq

/-- `parseFromFilename`: strip the extension, match
`(.*?)-(.*?)(?:\s*\[(.*?)\])?$`; on success trim the three captures
(`g[3] || ''` first defaults a missing genre), otherwise the whole stem
is the title and artist/genre are empty. -/
def parseFromFilename (name : String) : Meta3 :=
  let withoutExt := stripExt name
  match regexMatch3 withoutExt.data with
  | some (a, t, g) =>
    { title := jsTrim t, artist := jsTrim a, genre := jsTrim (g.getD "") }
  | none => { title := withoutExt, artist := "", genre := "" }

/-! ## The data model

A track record as pushed by the upload and URL handlers.  In JavaScript
a `file` track has a `path` field and a `url` track a `src` field; here
both fields are always present and the unused one is `""`.  Durations
are floats in the source; no claim depends on duration arithmetic, so
they are modelled as `Nat`. -/

structure Track where
  id : String
  type : String
  path : String
  src : String
  title : String
  artist : String
  album : String
  genre : String
  duration : Nat
  deriving Repr, DecidableEq

structure Playlist where
  id : String
  name : String
  trackIds : List String
  deriving Repr, DecidableEq

/-- The JSON store: `tracks` is an array, `playlists` an object keyed by
playlist id (modelled as an association list preserving insertion
order, as JavaScript objects do). -/
structure DB where
  tracks : List Track
  playlists : List (String × Playlist)
  deriving Repr, DecidableEq

def emptyDB : DB := { tracks := [], playlists := [] }

/-! ### JavaScript object operations on the playlists map -/

/-- `obj[k]`: the value at the first (in a well-formed object, only)
occurrence of key `k`. -/
def assocGet {α : Type} (k : String) : List (String × α) → Option α
  | [] => none
  | (k', v) :: rest => if k' = k then some v else assocGet k rest

/-- `obj[k] = v`: overwrite the entry for `k` in place, or append a new
entry when the key is absent. -/
def assocSet {α : Type} (k : String) (v : α) : List (String × α) → List (String × α)
  | [] => [(k, v)]
  | (k', v') :: rest => if k' = k then (k, v) :: rest else (k', v') :: assocSet k v rest

/-- `delete obj[k]`. -/
def assocDel {α : Type} (k : String) (l : List (String × α)) : List (String × α) :=
  l.filter (fun kv => kv.1 ≠ k)

/-! ## The persistence layer

`readDB` wraps `fs.readFile` + `JSON.parse` in a try/catch.  Both are
external calls: the backing document is modelled as `Option String`
(`none` when `db.json` is absent, so that the read throws) and
`JSON.parse` as an oracle `String → Option DB` (`none` when parsing
throws).  Either `none` lands in the catch block, which returns the
empty store. -/

def readDB (document : Option String) (parseJson : String → Option DB) : DB :=
  match document with
  | none => emptyDB
  | some raw =>
    match parseJson raw with
    | none => emptyDB
    | some db => db

/-! ## Route handlers

Each handler is a function from the store (as re-read by `readDB` at the
start of the request) and the request parameters to the HTTP status
code, the JSON payload where a claim needs it, and the store as
persisted by `writeDB` at the end of the request.  A handler that
returns an error response before reaching `writeDB` leaves the store
argument untouched.  Fresh `uuidv4()` identifiers are passed as
parameters. -/

/-- `POST /api/music/url`.  `req.body` destructuring defaults the
optional metadata fields to `""`; a missing `url` is also modelled as
`""` (both are falsy, triggering the same 400 response). -/
def registerUrlH (db : DB) (url title artist album genre : String)
    (freshId : String) : Nat × Option Track × DB :=
  if !(strTruthy url) then (400, none, db)
  else
    let seg := String.mk ((splitOnChar '/' url.data).getLastD [])
    let nm := jsOr seg "Stream"
    let hints := parseFromFilename nm
    let track : Track :=
      { id := freshId, type := "url", path := "", src := url
        title := jsOr title (jsOr hints.title nm)
        artist := jsOr artist (jsOr hints.artist "")
        album := jsOr album ""
        genre := jsOr genre (jsOr hints.genre "")
        duration := 0 }
    (200, some track, { db with tracks := db.tracks ++ [track] })

/-- `DELETE /api/music/:id`: `findIndex` + `splice(idx, 1)` on the
tracks array, then filter the id out of every playlist's `trackIds`.
The subsequent `fs.unlink` of the underlying file is an external side
effect whose failure the source swallows; it does not touch the store. -/
def deleteTrackH (db : DB) (id : String) : Nat × DB :=
  match db.tracks.findIdx? (fun t => t.id == id) with
  | none => (404, db)
  | some idx =>
    (200,
      { tracks := db.tracks.eraseIdx idx
        playlists := db.playlists.map
          (fun kv => (kv.1, { kv.2 with trackIds := kv.2.trackIds.filter (fun x => x ≠ id) })) })

/-- `POST /api/playlists`. -/
def createPlaylistH (db : DB) (name : String) (freshId : String) :
    Nat × Option Playlist × DB :=
  if !(strTruthy name) || !(strTruthy (jsTrim name)) then (400, none, db)
  else
    let pl : Playlist := { id := freshId, name := jsTrim name, trackIds := [] }
    let pls := assocSet freshId pl db.playlists
    (200, assocGet freshId pls, { db with playlists := pls })

/-- `PUT /api/playlists/:id`: rename only when the supplied name is
truthy and trims to a truthy string; always answers 200 once the
playlist is found. -/
def renamePlaylistH (db : DB) (id : String) (name : String) :
    Nat × Option Playlist × DB :=
  match assocGet id db.playlists with
  | none => (404, none, db)
  | some pl =>
    let pl' := if strTruthy name && strTruthy (jsTrim name)
      then { pl with name := jsTrim name } else pl
    (200, some pl', { db with playlists := assocSet id pl' db.playlists })

/-- `DELETE /api/playlists/:id`. -/
def deletePlaylistH (db : DB) (id : String) : Nat × DB :=
  match assocGet id db.playlists with
  | none => (404, db)
  | some _ => (200, { db with playlists := assocDel id db.playlists })

/-- `POST /api/playlists/:id/tracks`: 404 when the playlist is missing,
400 when the track id matches no stored track, and a push guarded by
`includes` otherwise. -/
def addPlaylistTrackH (db : DB) (plId trackId : String) :
    Nat × Option Playlist × DB :=
  match assocGet plId db.playlists with
  | none => (404, none, db)
  | some pl =>
    match db.tracks.find? (fun t => t.id == trackId) with
    | none => (400, none, db)
    | some _ =>
      let pl' := if pl.trackIds.contains trackId then pl
        else { pl with trackIds := pl.trackIds ++ [trackId] }
      (200, some pl', { db with playlists := assocSet plId pl' db.playlists })

/-- `DELETE /api/playlists/:id/tracks/:trackId`. -/
def removePlaylistTrackH (db : DB) (plId trackId : String) :
    Nat × Option Playlist × DB :=
  match assocGet plId db.playlists with
  | none => (404, none, db)
  | some pl =>
    let pl' := { pl with trackIds := pl.trackIds.filter (fun x => x ≠ trackId) }
    (200, some pl', { db with playlists := assocSet plId pl' db.playlists })

/-! ## The streaming endpoint (`GET /api/music/stream/:id`)

The on-disk state is an association list from full path to file bytes;
`statSync` is a lookup that throws (`none`) when the path is absent.
`path.join(UPLOAD_DIR, t.path)` is modelled by prefixing the upload
directory. -/

def uploadPath (p : String) : String := "uploads/" ++ p

/-- The response of the streaming handler.  `err s` is
`res.status(s).end()`; `ranged` is the 206 branch carrying the
`Content-Range` header string, the `Content-Length` value (a JavaScript
number, possibly `NaN`) and the streamed bytes; `whole` is the 200
branch. -/
inductive StreamResult where
  | err (status : Nat)
  | ranged (contentRange : String) (contentLength : JSNum) (body : List Nat)
  | whole (contentLength : Int) (body : List Nat)
  deriving Repr, DecidableEq

def StreamResult.statusCode : StreamResult → Nat
  | .err s => s
  | .ranged _ _ _ => 206
  | .whole _ _ => 200

/-- The `Content-Length` value of a ranged response. -/
def StreamResult.rangedLength : StreamResult → Option JSNum
  | .ranged _ len _ => some len
  | _ => none

/-- The `Content-Range` header of a ranged response. -/
def StreamResult.rangedHeader : StreamResult → Option String
  | .ranged hdr _ _ => some hdr
  | _ => none

/-- Parse the `Range` header exactly as the source does:
`range.replace(/bytes=/, '').split('-')`, `parseInt(parts[0], 10)`, and
`parts[1] ? parseInt(parts[1], 10) : total - 1`.  Out-of-range array
indexing yields `undefined`, which `parseInt` turns into `NaN` just as
it does the empty string, so both are modelled by the `[]` default. -/
def parseRange (range : String) (total : Int) : JSNum × JSNum :=
  let parts := splitOnChar '-' (dropFirstOcc "bytes=".data range.data)
  let s := parseIntJS (parts.getD 0 [])
  let e := if parts.getD 1 [] ≠ [] then parseIntJS (parts.getD 1 []) else some (total - 1)
  (s, e)

/-- The bytes delivered by `createReadStream(full, {start, end}).pipe(res)`:
for integral `start` and `end` with `0 ≤ start ≤ end` the stream yields
the inclusive byte span clamped at end of file; any other pair (`NaN`,
negative, or `start > end`) makes `createReadStream` throw or emit an
error after the headers have been written, so no body bytes reach the
client. -/
def readStreamBody (contents : List Nat) (s e : JSNum) : List Nat :=
  match s, e with
  | some sv, some ev =>
    if 0 ≤ sv ∧ sv ≤ ev then (contents.drop sv.toNat).take (ev - sv + 1).toNat else []
  | _, _ => []

/-- The handler: track lookup, kind check, `statSync`, then the range
branch (taken when the header is present and truthy) or the
whole-file branch. -/
def streamH (db : DB) (fsFiles : List (String × List Nat)) (id : String)
    (rangeHdr : Option String) : StreamResult :=
  match db.tracks.find? (fun t => t.id == id) with
  | none => .err 404
  | some t =>
    if t.type ≠ "file" then .err 400
    else
      match assocGet (uploadPath t.path) fsFiles with
      | none => .err 404
      | some contents =>
        let total : Int := contents.length
        match rangeHdr with
        | some range =>
          if strTruthy range then
            let se := parseRange range total
            let chunk := jsAdd (jsSub se.2 se.1) (some 1)
            .ranged ("bytes " ++ jsNumToString se.1 ++ "-" ++ jsNumToString se.2
                       ++ "/" ++ Int.repr total)
              chunk (readStreamBody contents se.1 se.2)
          else .whole total contents
        | none => .whole total contents

/-! ## API operations as store transformers

One constructor per mutating endpoint; `applyOp` projects the store each
handler persists.  The upload handler's loop pushes one freshly built
track record per file onto `db.tracks` and never touches playlists; the
records' contents come from the external metadata library, so the op
carries the pushed list.  The read-only endpoints never call `writeDB`
and therefore need no constructor. -/

inductive ApiOp where
  | upload (newTracks : List Track)
  | registerUrl (url title artist album genre freshId : String)
  | deleteTrack (id : String)
  | createPlaylist (name freshId : String)
  | renamePlaylist (id name : String)
  | deletePlaylist (id : String)
  | addPlaylistTrack (plId trackId : String)
  | removePlaylistTrack (plId trackId : String)

def applyOp (db : DB) : ApiOp → DB
  | .upload ts => { db with tracks := db.tracks ++ ts }
  | .registerUrl u t a al g f => (registerUrlH db u t a al g f).2.2
  | .deleteTrack i => (deleteTrackH db i).2
  | .createPlaylist n f => (createPlaylistH db n f).2.2
  | .renamePlaylist i n => (renamePlaylistH db i n).2.2
  | .deletePlaylist i => (deletePlaylistH db i).2
  | .addPlaylistTrack p t => (addPlaylistTrackH db p t).2.2
  | .removePlaylistTrack p t => (removePlaylistTrackH db p t).2.2

def applyOps (db : DB) (ops : List ApiOp) : DB := ops.foldl applyOp db

/-- Referential integrity: every track id referenced by a playlist names
a track present in the store. -/
def RefIntegrity (db : DB) : Prop :=
  ∀ kv ∈ db.playlists, ∀ tid ∈ kv.2.trackIds, tid ∈ db.tracks.map Track.id

instance (db : DB) : Decidable (RefIntegrity db) :=
  inferInstanceAs (Decidable (∀ kv ∈ db.playlists, ∀ tid ∈ kv.2.trackIds, _))

/-! ### Helper lemmas on association lists and erasure -/

theorem assocGet_mem {α : Type} {k : String} {v : α} :
    ∀ {l : List (String × α)}, assocGet k l = some v → (k, v) ∈ l
  | [], h => by simp [assocGet] at h
  | (k', v') :: rest, h => by
    by_cases hk : k' = k
    · simp [assocGet, hk] at h
      exact hk ▸ h ▸ List.mem_cons_self _ _
    · simp [assocGet, hk] at h
      exact List.mem_cons_of_mem _ (assocGet_mem h)

theorem mem_assocSet {α : Type} {k : String} {v : α} {kv : String × α} :
    ∀ {l : List (String × α)}, kv ∈ assocSet k v l → kv = (k, v) ∨ kv ∈ l
  | [], h => by simpa [assocSet] using h
  | (k', v') :: rest, h => by
    by_cases hk : k' = k
    · simp [assocSet, hk] at h
      rcases h with h | h
      · exact Or.inl h
      · exact Or.inr (List.mem_cons_of_mem _ h)
    · simp [assocSet, hk] at h
      rcases h with h | h
      · exact Or.inr (by simp [h])
      · rcases mem_assocSet h with h' | h'
        · exact Or.inl h'
        · exact Or.inr (List.mem_cons_of_mem _ h')

theorem assocGet_assocSet_self {α : Type} (k : String) (v : α) :
    ∀ (l : List (String × α)), assocGet k (assocSet k v l) = some v
  | [] => by simp [assocGet, assocSet]
  | (k', v') :: rest => by
    by_cases hk : k' = k
    · simp [assocSet, hk, assocGet]
    · simp [assocSet, hk, assocGet, assocGet_assocSet_self k v rest]

theorem assocSet_assocSet_self {α : Type} (k : String) (v : α) :
    ∀ (l : List (String × α)), assocSet k v (assocSet k v l) = assocSet k v l
  | [] => by simp [assocSet]
  | (k', v') :: rest => by
    by_cases hk : k' = k
    · simp [assocSet, hk]
    · simp [assocSet, hk, assocSet_assocSet_self k v rest]

theorem assocSet_of_key_absent {α : Type} (k : String) (v : α) :
    ∀ {l : List (String × α)}, assocGet k l = none → assocSet k v l = l ++ [(k, v)]
  | [], _ => rfl
  | (k', v') :: rest, h => by
    by_cases hk : k' = k
    · simp [assocGet, hk] at h
    · simp [assocGet, hk] at h
      simp [assocSet, hk, assocSet_of_key_absent k v h]

theorem mem_eraseIdx_of_mem_of_ne {α : Type} {a : α} :
    ∀ {l : List α} {i : Nat}, a ∈ l → (∀ h : i < l.length, a ≠ l[i]) →
      a ∈ l.eraseIdx i
  | [], _, hm, _ => absurd hm (List.not_mem_nil a)
  | x :: rest, 0, hm, hne => by
    rcases List.mem_cons.mp hm with h | h
    · exact absurd h (hne (by simp))
    · simpa using h
  | x :: rest, i + 1, hm, hne => by
    rcases List.mem_cons.mp hm with h | h
    · simp [List.eraseIdx, h]
    · exact List.mem_cons_of_mem _
        (mem_eraseIdx_of_mem_of_ne h (fun hlt => hne (by simpa using Nat.succ_lt_succ hlt)))

/-- One step of any mutating endpoint preserves referential integrity. -/
theorem refIntegrity_applyOp {db : DB} (hdb : RefIntegrity db) (op : ApiOp) :
    RefIntegrity (applyOp db op) := by
  cases op with
  | upload ts =>
    intro kv hkv tid htid
    simp only [applyOp] at hkv ⊢
    rw [List.map_append]
    exact List.mem_append_left _ (hdb kv hkv tid htid)
  | registerUrl u t a al g f =>
    intro kv hkv tid htid
    simp only [applyOp, registerUrlH] at hkv ⊢
    by_cases hu : strTruthy u
    · simp only [hu, Bool.not_true, Bool.false_eq_true, if_false] at hkv ⊢
      rw [List.map_append]
      exact List.mem_append_left _ (hdb kv hkv tid htid)
    · simp only [hu, Bool.not_false, if_true] at hkv ⊢
      exact hdb kv hkv tid htid
  | deleteTrack i =>
    intro kv hkv tid htid
    simp only [applyOp, deleteTrackH] at hkv ⊢
    cases hfind : db.tracks.findIdx? (fun t => t.id == i) with
    | none =>
      simp only [hfind] at hkv ⊢
      exact hdb kv hkv tid htid
    | some idx =>
      simp only [hfind] at hkv ⊢
      rcases List.mem_map.mp hkv with ⟨kv₀, hkv₀, hmap⟩
      subst hmap
      simp only [List.mem_filter] at htid
      obtain ⟨htid₀, hne⟩ := htid
      have hne' : tid ≠ i := by simpa using hne
      have hmem := hdb kv₀ hkv₀ tid htid₀
      rcases List.mem_map.mp hmem with ⟨tr, htr, hid⟩
      obtain ⟨hlt, hpidx, -⟩ := List.findIdx?_eq_some_iff_getElem.mp hfind
      refine List.mem_map.mpr ⟨tr, ?_, hid⟩
      refine mem_eraseIdx_of_mem_of_ne htr ?_
      intro _ heq
      exact hne' (by rw [← hid, heq]; simpa using hpidx)
  | createPlaylist n f =>
    intro kv hkv tid htid
    simp only [applyOp, createPlaylistH] at hkv ⊢
    by_cases hn : (!(strTruthy n) || !(strTruthy (jsTrim n))) = true
    · simp only [hn, if_true] at hkv ⊢
      exact hdb kv hkv tid htid
    · simp only [hn, Bool.false_eq_true, if_false] at hkv ⊢
      rcases mem_assocSet hkv with h | h
      · subst h; simp at htid
      · exact hdb kv h tid htid
  | renamePlaylist i n =>
    intro kv hkv tid htid
    simp only [applyOp, renamePlaylistH] at hkv ⊢
    cases hget : assocGet i db.playlists with
    | none =>
      simp only [hget] at hkv ⊢
      exact hdb kv hkv tid htid
    | some pl =>
      simp only [hget] at hkv ⊢
      rcases mem_assocSet hkv with h | h
      · subst h
        have hpl := assocGet_mem hget
        by_cases hcond : (strTruthy n && strTruthy (jsTrim n)) = true
        · simp only [hcond, if_true] at htid
          exact hdb _ hpl tid htid
        · simp only [hcond, Bool.false_eq_true, if_false] at htid
          exact hdb _ hpl tid htid
      · exact hdb kv h tid htid
  | deletePlaylist i =>
    intro kv hkv tid htid
    simp only [applyOp, deletePlaylistH] at hkv ⊢
    cases hget : assocGet i db.playlists with
    | none =>
      simp only [hget] at hkv ⊢
      exact hdb kv hkv tid htid
    | some pl =>
      simp only [hget, assocDel] at hkv ⊢
      exact hdb kv (List.mem_of_mem_filter hkv) tid htid
  | addPlaylistTrack p t =>
    intro kv hkv tid htid
    simp only [applyOp, addPlaylistTrackH] at hkv ⊢
    cases hget : assocGet p db.playlists with
    | none =>
      simp only [hget] at hkv ⊢
      exact hdb kv hkv tid htid
    | some pl =>
      simp only [hget] at hkv ⊢
      cases hfind : db.tracks.find? (fun tr => tr.id == t) with
      | none =>
        simp only [hfind] at hkv ⊢
        exact hdb kv hkv tid htid
      | some tr =>
        simp only [hfind] at hkv ⊢
        have htr : tr ∈ db.tracks := List.mem_of_find?_eq_some hfind
        have htrid : tr.id = t := by
          have := List.find?_some hfind
          simpa using this
        rcases mem_assocSet hkv with h | h
        · subst h
          have hpl := assocGet_mem hget
          by_cases hc : pl.trackIds.contains t
          · simp only [hc, if_true] at htid
            exact hdb _ hpl tid htid
          · simp only [hc, Bool.false_eq_true, if_false] at htid
            simp only [List.mem_append] at htid
            rcases htid with h' | h'
            · exact hdb _ hpl tid h'
            · simp only [List.mem_singleton] at h'
              subst h'
              exact List.mem_map.mpr ⟨tr, htr, htrid⟩
        · exact hdb kv h tid htid
  | removePlaylistTrack p t =>
    intro kv hkv tid htid
    simp only [applyOp, removePlaylistTrackH] at hkv ⊢
    cases hget : assocGet p db.playlists with
    | none =>
      simp only [hget] at hkv ⊢
      exact hdb kv hkv tid htid
    | some pl =>
      simp only [hget] at hkv ⊢
      rcases mem_assocSet hkv with h | h
      · subst h
        have hpl := assocGet_mem hget
        exact hdb _ hpl tid (List.mem_of_mem_filter htid)
      · exact hdb kv h tid htid

/-! ### The regex requires a literal hyphen -/

theorem matchHere_eq_none_of_no_hyphen {acc : List Char} :
    ∀ {l : List Char}, '-' ∉ l → matchHere acc l = none := by
  intro l
  induction l generalizing acc with
  | nil => intro _; rfl
  | cons c rest ih =>
    intro h
    have hc : c ≠ '-' := fun hc => h (hc ▸ List.mem_cons_self c rest)
    have hr : '-' ∉ rest := fun hr => h (List.mem_cons_of_mem c hr)
    simp only [matchHere, if_neg hc, Option.orElse]
    by_cases hd : jsDot c
    · simp [hd, ih hr]
    · simp [hd]

theorem regexMatch3_eq_none_of_no_hyphen :
    ∀ {l : List Char}, '-' ∉ l → regexMatch3 l = none := by
  intro l
  induction l with
  | nil => intro _; rfl
  | cons c rest ih =>
    intro h
    have hr : '-' ∉ rest := fun hr => h (List.mem_cons_of_mem c hr)
    simp only [regexMatch3, matchHere_eq_none_of_no_hyphen h, Option.orElse, ih hr]

/-! ## The claims -/

/-- Claim C4: the filename-hint parser maps
`"Daft Punk - One More Time [Dance].mp3"` to artist `"Daft Punk"`,
title `"One More Time"` and genre `"Dance"`; and whenever the
extension-stripped stem contains no hyphen the whole stem becomes the
title with empty artist and genre. -/
theorem claimC4 :
    parseFromFilename "Daft Punk - One More Time [Dance].mp3" =
      { title := "One More Time", artist := "Daft Punk", genre := "Dance" } ∧
    ∀ name : String, '-' ∉ (stripExt name).data →
      parseFromFilename name = { title := stripExt name, artist := "", genre := "" } := by
  refine ⟨by decide, fun name h => ?_⟩
  simp only [parseFromFilename, regexMatch3_eq_none_of_no_hyphen h]

/-- Witness for C4 at the concrete hyphen-free filename `"hello world.mp3"`. -/
theorem claimC4_wit :
    parseFromFilename "hello world.mp3" =
      { title := "hello world", artist := "", genre := "" } :=
  claimC4.2 "hello world.mp3" (by decide)

/-- Claim C6: the store loader returns the empty store when the backing
document is absent or when `JSON.parse` fails, and the parsed store when
parsing succeeds; being a total function it raises no error. -/
theorem claimC6 :
    (∀ parseJson, readDB none parseJson = emptyDB) ∧
    (∀ parseJson raw, parseJson raw = none → readDB (some raw) parseJson = emptyDB) ∧
    (∀ parseJson raw db, parseJson raw = some db → readDB (some raw) parseJson = db) := by
  refine ⟨fun _ => rfl, fun p raw h => ?_, fun p raw db h => ?_⟩ <;> simp [readDB, h]

/-- Witness for C6 with concrete parse oracles. -/
theorem claimC6_wit :
    readDB none (fun _ => none) = emptyDB ∧
    readDB (some "not json") (fun _ => none) = emptyDB ∧
    readDB (some "{}") (fun _ => some emptyDB) = emptyDB :=
  ⟨claimC6.1 _, claimC6.2.1 _ "not json" rfl, claimC6.2.2 _ "{}" emptyDB rfl⟩

/-- Claim C7: creating a playlist with a missing (modelled `""`), empty
or whitespace-only name answers 400 and persists nothing; a name with a
nonempty trim yields a playlist with the fresh id, the trimmed name and
no tracks, appended to the store and returned. -/
theorem claimC7 :
    ∀ (db : DB) (name freshId : String),
      (jsTrim name = "" → createPlaylistH db name freshId = (400, none, db)) ∧
      (jsTrim name ≠ "" → assocGet freshId db.playlists = none →
        createPlaylistH db name freshId =
          (200, some { id := freshId, name := jsTrim name, trackIds := [] },
            { db with playlists := db.playlists ++
                [(freshId, { id := freshId, name := jsTrim name, trackIds := [] })] })) := by
  intro db name freshId
  constructor
  · intro h
    simp [createPlaylistH, strTruthy, h]
  · intro h hfresh
    have hname : name ≠ "" := by
      intro hn
      subst hn
      exact h (by decide)
    have hcond : (!(strTruthy name) || !(strTruthy (jsTrim name))) = false := by
      simp [strTruthy, hname, h]
    simp only [createPlaylistH, hcond, Bool.false_eq_true, if_false]
    rw [assocGet_assocSet_self, assocSet_of_key_absent _ _ hfresh]

/-- Witness for C7: a whitespace-only and a padded name against the
empty store. -/
theorem claimC7_wit :
    createPlaylistH emptyDB "   " "p1" = (400, none, emptyDB) ∧
    createPlaylistH emptyDB " My List " "p1" =
      (200, some { id := "p1", name := "My List", trackIds := [] },
        { emptyDB with playlists :=
            [("p1", { id := "p1", name := "My List", trackIds := [] })] }) := by
  constructor
  · exact (claimC7 emptyDB "   " "p1").1 (by decide)
  · have := (claimC7 emptyDB " My List " "p1").2 (by decide) rfl
    simpa using this

/-- Claim C5: adding a track to a playlist is idempotent — a successful
add applied again is a no-op answering the same 200 response; when the
playlist's sequence held at most one occurrence (the data model's
duplicate-suppression invariant), a successful add leaves exactly one
occurrence; 404 when the playlist is absent and 400 when the track id
matches no stored track. -/
theorem claimC5 :
    ∀ (db : DB) (plId trackId : String),
      ((addPlaylistTrackH db plId trackId).1 = 200 →
        addPlaylistTrackH (addPlaylistTrackH db plId trackId).2.2 plId trackId =
          addPlaylistTrackH db plId trackId) ∧
      (∀ pl, assocGet plId db.playlists = some pl →
        pl.trackIds.count trackId ≤ 1 →
        (addPlaylistTrackH db plId trackId).1 = 200 →
        ∀ pl', assocGet plId (addPlaylistTrackH db plId trackId).2.2.playlists = some pl' →
          pl'.trackIds.count trackId = 1) ∧
      (assocGet plId db.playlists = none →
        addPlaylistTrackH db plId trackId = (404, none, db)) ∧
      (∀ pl, assocGet plId db.playlists = some pl →
        trackId ∉ db.tracks.map Track.id →
        addPlaylistTrackH db plId trackId = (400, none, db)) := by
  intro db plId trackId
  refine ⟨?_, ?_, ?_, ?_⟩
  · intro h200
    cases hget : assocGet plId db.playlists with
    | none => simp [addPlaylistTrackH, hget] at h200
    | some pl =>
      cases hfind : db.tracks.find? (fun t => t.id == trackId) with
      | none => simp [addPlaylistTrackH, hget, hfind] at h200
      | some tr =>
        have hcontains :
            ((if pl.trackIds.contains trackId then pl
              else { pl with trackIds := pl.trackIds ++ [trackId] }).trackIds).contains
                trackId = true := by
          by_cases hc : trackId ∈ pl.trackIds
          · simp [hc]
          · simp [hc]
        simp only [addPlaylistTrackH, hget, hfind] at h200 ⊢
        rw [assocGet_assocSet_self]
        simp only [hfind, hcontains, if_true, assocSet_assocSet_self]
  · intro pl hget hcount h200 pl' hget'
    cases hfind : db.tracks.find? (fun t => t.id == trackId) with
    | none => simp [addPlaylistTrackH, hget, hfind] at h200
    | some tr =>
      simp only [addPlaylistTrackH, hget, hfind] at hget'
      rw [assocGet_assocSet_self] at hget'
      injection hget' with hpl'
      subst hpl'
      by_cases hc : pl.trackIds.contains trackId
      · have hmem : trackId ∈ pl.trackIds := by
          simpa [List.contains_eq_any_beq] using hc
        have h1 : 0 < pl.trackIds.count trackId := List.count_pos_iff.mpr hmem
        simp only [hc, if_true]
        omega
      · have hmem : trackId ∉ pl.trackIds := by
          simpa [List.contains_eq_any_beq] using hc
        simp only [hc, Bool.false_eq_true, if_false]
        simp [List.count_eq_zero.mpr hmem]
  · intro hget
    simp [addPlaylistTrackH, hget]
  · intro pl hget hnot
    have hfind : db.tracks.find? (fun t => t.id == trackId) = none := by
      rw [List.find?_eq_none]
      intro tr htr htrid
      exact hnot (List.mem_map.mpr ⟨tr, htr, by simpa using htrid⟩)
    simp [addPlaylistTrackH, hget, hfind]

/-- A one-track, one-playlist store used by the concrete witnesses. -/
def demoTrack : Track :=
  { id := "t1", type := "url", path := "", src := "u", title := "T",
    artist := "", album := "", genre := "", duration := 0 }

def demoPl : Playlist := { id := "p1", name := "P", trackIds := ["t1"] }

def demoDB : DB := { tracks := [demoTrack], playlists := [("p1", demoPl)] }

/-- Witness for C5: re-adding `"t1"` to the playlist that already holds
it leaves exactly one occurrence. -/
theorem claimC5_wit : demoPl.trackIds.count "t1" = 1 :=
  (claimC5 demoDB "p1" "t1").2.1 demoPl (by decide) (by decide) (by decide)
    demoPl (by decide)

/-- With duplicate-free track ids, erasing the track found at `idx`
removes its id from the id multiset entirely. -/
theorem not_mem_map_id_eraseIdx {i : String} :
    ∀ {tracks : List Track} {idx : Nat}, (tracks.map Track.id).Nodup →
      ∀ hlt : idx < tracks.length, (tracks.get ⟨idx, hlt⟩).id = i →
        i ∉ (tracks.eraseIdx idx).map Track.id
  | [], idx, _, hlt, _ => by simp at hlt
  | tr :: rest, 0, hnd, hlt, hid => by
    simp only [List.map_cons, List.nodup_cons] at hnd
    have h0 : tr.id = i := by simpa using hid
    exact fun hmem => hnd.1 (h0 ▸ hmem)
  | tr :: rest, idx + 1, hnd, hlt, hid => by
    simp only [List.map_cons, List.nodup_cons] at hnd
    simp only [List.eraseIdx_cons_succ, List.map_cons, List.mem_cons]
    push_neg
    have hlt' : idx < rest.length := by simpa using Nat.lt_of_succ_lt_succ hlt
    have hid' : (rest.get ⟨idx, hlt'⟩).id = i := hid
    constructor
    · intro hi
      apply hnd.1
      rw [← hi]
      exact List.mem_map.mpr ⟨_, List.get_mem rest idx hlt', hid'⟩
    · exact not_mem_map_id_eraseIdx hnd.2 hlt' hid'

/-- Claim C3: deleting a present track answers 200, removes it from the
tracks listing (given the data model's unique-id invariant) and strips
its id from every playlist; deleting an absent id answers 404 and leaves
the store untouched. -/
theorem claimC3 :
    ∀ (db : DB) (id : String),
      ((db.tracks.map Track.id).Nodup → id ∈ db.tracks.map Track.id →
        (deleteTrackH db id).1 = 200 ∧
        id ∉ (deleteTrackH db id).2.tracks.map Track.id ∧
        ∀ kv ∈ (deleteTrackH db id).2.playlists, id ∉ kv.2.trackIds) ∧
      (id ∉ db.tracks.map Track.id → deleteTrackH db id = (404, db)) := by
  intro db id
  constructor
  · intro hnd hmem
    cases hfind : db.tracks.findIdx? (fun t => t.id == id) with
    | none =>
      rcases List.mem_map.mp hmem with ⟨tr, htr, hid⟩
      have := List.findIdx?_eq_none_iff.mp hfind tr htr
      simp [hid] at this
    | some idx =>
      obtain ⟨hlt, hpidx, -⟩ := List.findIdx?_eq_some_iff_getElem.mp hfind
      have hid : (db.tracks.get ⟨idx, hlt⟩).id = id := by simpa using hpidx
      refine ⟨by simp [deleteTrackH, hfind], ?_, ?_⟩
      · simp only [deleteTrackH, hfind]
        exact not_mem_map_id_eraseIdx hnd hlt hid
      · intro kv hkv
        simp only [deleteTrackH, hfind] at hkv
        rcases List.mem_map.mp hkv with ⟨kv₀, -, hmap⟩
        subst hmap
        simp only [List.mem_filter]
        rintro ⟨-, hne⟩
        simp at hne
  · intro hnot
    have hfind : db.tracks.findIdx? (fun t => t.id == id) = none := by
      rw [List.findIdx?_eq_none_iff]
      intro tr htr
      simp only [beq_eq_false_iff_ne, ne_eq]
      intro hid
      exact hnot (List.mem_map.mpr ⟨tr, htr, hid⟩)
    simp [deleteTrackH, hfind]

/-- Witness for C3: deleting `"t1"` from the demo store. -/
theorem claimC3_wit :
    (deleteTrackH demoDB "t1").1 = 200 ∧
    "t1" ∉ (deleteTrackH demoDB "t1").2.tracks.map Track.id ∧
    ∀ kv ∈ (deleteTrackH demoDB "t1").2.playlists, "t1" ∉ kv.2.trackIds :=
  (claimC3 demoDB "t1").1 (by decide) (by decide)

/-- Claim C2: referential integrity is preserved by every sequence of
API operations. -/
theorem claimC2 :
    ∀ (db : DB) (ops : List ApiOp), RefIntegrity db → RefIntegrity (applyOps db ops) := by
  intro db ops
  induction ops generalizing db with
  | nil => exact fun h => h
  | cons op rest ih =>
    intro h
    exact ih (applyOp db op) (refIntegrity_applyOp h op)

/-- Witness for C2: a concrete three-operation run from the demo store. -/
theorem claimC2_wit :
    RefIntegrity (applyOps demoDB
      [ApiOp.createPlaylist "Road trip" "p2",
       ApiOp.addPlaylistTrack "p2" "t1",
       ApiOp.deleteTrack "t1"]) :=
  claimC2 demoDB
    [ApiOp.createPlaylist "Road trip" "p2",
     ApiOp.addPlaylistTrack "p2" "t1",
     ApiOp.deleteTrack "t1"] (by decide)

/-- Claim C10: whenever a mutating handler answers 400 or 404 it has
returned before any store write, so the persisted store equals the
pre-request store, for all seven mutating endpoints. -/
theorem claimC10 :
    ∀ db : DB,
      (∀ u t a al g f, ((registerUrlH db u t a al g f).1 = 400 ∨
          (registerUrlH db u t a al g f).1 = 404) →
        (registerUrlH db u t a al g f).2.2 = db) ∧
      (∀ i, ((deleteTrackH db i).1 = 400 ∨ (deleteTrackH db i).1 = 404) →
        (deleteTrackH db i).2 = db) ∧
      (∀ n f, ((createPlaylistH db n f).1 = 400 ∨ (createPlaylistH db n f).1 = 404) →
        (createPlaylistH db n f).2.2 = db) ∧
      (∀ i n, ((renamePlaylistH db i n).1 = 400 ∨ (renamePlaylistH db i n).1 = 404) →
        (renamePlaylistH db i n).2.2 = db) ∧
      (∀ i, ((deletePlaylistH db i).1 = 400 ∨ (deletePlaylistH db i).1 = 404) →
        (deletePlaylistH db i).2 = db) ∧
      (∀ p t, ((addPlaylistTrackH db p t).1 = 400 ∨ (addPlaylistTrackH db p t).1 = 404) →
        (addPlaylistTrackH db p t).2.2 = db) ∧
      (∀ p t, ((removePlaylistTrackH db p t).1 = 400 ∨ (removePlaylistTrackH db p t).1 = 404) →
        (removePlaylistTrackH db p t).2.2 = db) := by
  intro db
  refine ⟨?_, ?_, ?_, ?_, ?_, ?_, ?_⟩
  · intro u t a al g f h
    by_cases hu : strTruthy u
    · simp [registerUrlH, hu] at h
    · simp [registerUrlH, hu]
  · intro i h
    cases hfind : db.tracks.findIdx? (fun t => t.id == i) with
    | none => simp [deleteTrackH, hfind]
    | some idx => simp [deleteTrackH, hfind] at h
  · intro n f h
    by_cases hc : (!(strTruthy n) || !(strTruthy (jsTrim n))) = true
    · simp [createPlaylistH, hc]
    · simp [createPlaylistH, hc] at h
  · intro i n h
    cases hget : assocGet i db.playlists with
    | none => simp [renamePlaylistH, hget]
    | some pl => simp [renamePlaylistH, hget] at h
  · intro i h
    cases hget : assocGet i db.playlists with
    | none => simp [deletePlaylistH, hget]
    | some pl => simp [deletePlaylistH, hget] at h
  · intro p t h
    cases hget : assocGet p db.playlists with
    | none => simp [addPlaylistTrackH, hget]
    | some pl =>
      cases hfind : db.tracks.find? (fun tr => tr.id == t) with
      | none => simp [addPlaylistTrackH, hget, hfind]
      | some tr => simp [addPlaylistTrackH, hget, hfind] at h
  · intro p t h
    cases hget : assocGet p db.playlists with
    | none => simp [removePlaylistTrackH, hget]
    | some pl => simp [removePlaylistTrackH, hget] at h

/-- Witness for C10: each error path evaluated on a concrete store. -/
theorem claimC10_wit :
    (registerUrlH demoDB "" "" "" "" "" "x").2.2 = demoDB ∧
    (deleteTrackH demoDB "missing").2 = demoDB ∧
    (createPlaylistH demoDB " " "x").2.2 = demoDB ∧
    (renamePlaylistH demoDB "missing" "New").2.2 = demoDB ∧
    (deletePlaylistH demoDB "missing").2 = demoDB ∧
    (addPlaylistTrackH demoDB "p1" "missing").2.2 = demoDB ∧
    (removePlaylistTrackH demoDB "missing" "t1").2.2 = demoDB :=
  ⟨(claimC10 demoDB).1 "" "" "" "" "" "x" (by decide),
   (claimC10 demoDB).2.1 "missing" (by decide),
   (claimC10 demoDB).2.2.1 " " "x" (by decide),
   (claimC10 demoDB).2.2.2.1 "missing" "New" (by decide),
   (claimC10 demoDB).2.2.2.2.1 "missing" (by decide),
   (claimC10 demoDB).2.2.2.2.2.1 "p1" "missing" (by decide),
   (claimC10 demoDB).2.2.2.2.2.2 "missing" "t1" (by decide)⟩

/-- Claim C8: the streaming endpoint answers 404 for an unknown track
id, 400 for a track that is not of kind `file`, and 404 when the track's
file is absent from disk (the `statSync` failure is caught); these are
the three guards ahead of any byte streaming. -/
theorem claimC8 :
    ∀ (db : DB) (fsFiles : List (String × List Nat)) (id : String) (rangeHdr : Option String),
      (db.tracks.find? (fun t => t.id == id) = none →
        streamH db fsFiles id rangeHdr = .err 404) ∧
      (∀ t, db.tracks.find? (fun t => t.id == id) = some t → t.type ≠ "file" →
        streamH db fsFiles id rangeHdr = .err 400) ∧
      (∀ t, db.tracks.find? (fun t => t.id == id) = some t → t.type = "file" →
        assocGet (uploadPath t.path) fsFiles = none →
        streamH db fsFiles id rangeHdr = .err 404) := by
  intro db fsFiles id rangeHdr
  refine ⟨?_, ?_, ?_⟩
  · intro hfind
    simp [streamH, hfind]
  · intro t hfind htype
    simp [streamH, hfind, htype]
  · intro t hfind htype hfs
    simp [streamH, hfind, htype, hfs]

/-- A `file`-kind track and a store holding it, for the streaming
witnesses. -/
def demoFileTrack : Track :=
  { id := "t2", type := "file", path := "a.mp3", src := "", title := "T2",
    artist := "", album := "", genre := "", duration := 0 }

def demoFileDB : DB := { tracks := [demoFileTrack], playlists := [] }

/-- Witness for C8 on concrete stores: absent id, then a `url` track,
then a `file` track with no bytes on disk. -/
theorem claimC8_wit :
    streamH demoDB [] "missing" none = .err 404 ∧
    streamH demoDB [] "t1" none = .err 400 ∧
    streamH demoFileDB [] "t2" none = .err 404 := by
  refine ⟨(claimC8 demoDB [] "missing" none).1 (by decide),
    (claimC8 demoDB [] "t1" none).2.1 demoTrack (by decide) (by decide),
    (claimC8 demoFileDB [] "t2" none).2.2 demoFileTrack
      (by decide) (by decide) (by decide)⟩

/-! ### Range-branch helper lemmas -/

theorem dropFirstOcc_append (pat rest : List Char) (hp : pat ≠ []) :
    dropFirstOcc pat (pat ++ rest) = rest := by
  cases pat with
  | nil => exact absurd rfl hp
  | cons c p =>
    have hpre : (c :: p).isPrefixOf (c :: (p ++ rest)) = true :=
      List.isPrefixOf_iff_prefix.mpr (List.prefix_append _ _)
    show dropFirstOcc (c :: p) (c :: (p ++ rest)) = rest
    simp only [dropFirstOcc]
    rw [if_pos hpre]
    exact List.drop_left (c :: p) rest

theorem splitOnChar_append_sep (c : Char) :
    ∀ {p1 : List Char}, c ∉ p1 → splitOnChar c (p1 ++ [c]) = [p1, []]
  | [], _ => by simp [splitOnChar]
  | x :: p, h => by
    have hx : x ≠ c := fun hx => h (hx ▸ List.mem_cons_self x p)
    have hp : c ∉ p := fun hp => h (List.mem_cons_of_mem x hp)
    show splitOnChar c (x :: (p ++ [c])) = [x :: p, []]
    simp only [splitOnChar, if_neg hx]
    rw [splitOnChar_append_sep c hp]

/-- The streaming handler on a present `file` track whose bytes are on
disk, with a truthy `Range` header: the 206 branch, verbatim. -/
theorem streamH_ranged {db : DB} {fsFiles : List (String × List Nat)} {id : String}
    {t : Track} {contents : List Nat} (range : String)
    (hfind : db.tracks.find? (fun x => x.id == id) = some t)
    (htype : t.type = "file")
    (hfs : assocGet (uploadPath t.path) fsFiles = some contents)
    (hr : strTruthy range = true) :
    streamH db fsFiles id (some range) =
      .ranged ("bytes " ++ jsNumToString (parseRange range (contents.length : Int)).1 ++ "-"
          ++ jsNumToString (parseRange range (contents.length : Int)).2 ++ "/"
          ++ Int.repr (contents.length : Int))
        (jsAdd (jsSub (parseRange range (contents.length : Int)).2
            (parseRange range (contents.length : Int)).1) (some 1))
        (readStreamBody contents (parseRange range (contents.length : Int)).1
          (parseRange range (contents.length : Int)).2) := by
  simp [streamH, hfind, htype, hfs, hr]

/-- Claim C1: for a stored `file` track whose bytes are on disk with
total size `T ≥ 200`, the header `Range: bytes=100-199` yields a 206
response with `Content-Range: bytes 100-199/T`, `Content-Length: 100`
and a body that is exactly bytes 100 through 199 of the file; with the
end omitted (`bytes=100-`) the span runs to the last byte (`end = T-1`)
and the body is everything from offset 100 on. -/
theorem claimC1 :
    ∀ (db : DB) (fsFiles : List (String × List Nat)) (id : String) (t : Track)
      (contents : List Nat),
      db.tracks.find? (fun x => x.id == id) = some t →
      t.type = "file" →
      assocGet (uploadPath t.path) fsFiles = some contents →
      200 ≤ contents.length →
      (streamH db fsFiles id (some "bytes=100-199") =
          .ranged ("bytes 100-199/" ++ Int.repr (contents.length : Int)) (some 100)
            ((contents.drop 100).take 100) ∧
        ((contents.drop 100).take 100).length = 100 ∧
        (∀ i, i < 100 →
          ((contents.drop 100).take 100).getD i 0 = contents.getD (100 + i) 0)) ∧
      streamH db fsFiles id (some "bytes=100-") =
        .ranged ("bytes 100-" ++ Int.repr ((contents.length : Int) - 1) ++ "/"
            ++ Int.repr (contents.length : Int))
          (some ((contents.length : Int) - 100)) (contents.drop 100) := by
  intro db fsFiles id t contents hfind htype hfs hlen
  refine ⟨⟨?_, ?_, ?_⟩, ?_⟩
  · rw [streamH_ranged "bytes=100-199" hfind htype hfs rfl]
    rfl
  · rw [List.length_take, List.length_drop]
    omega
  · intro i hi
    rw [List.getD_eq_getElem?_getD, List.getD_eq_getElem?_getD,
      List.getElem?_take_of_lt hi, List.getElem?_drop]
  · rw [streamH_ranged "bytes=100-" hfind htype hfs rfl]
    have hpr : parseRange "bytes=100-" (contents.length : Int) =
        (some 100, some ((contents.length : Int) - 1)) := rfl
    rw [hpr]
    congr 1
    · simp only [jsAdd, jsSub]
      congr 1
      omega
    · show readStreamBody contents (some 100) (some ((contents.length : Int) - 1)) = _
      rw [readStreamBody, if_pos ⟨by norm_num, by omega⟩]
      have h100 : (100 : Int).toNat = 100 := rfl
      have htn : ((contents.length : Int) - 1 - 100 + 1).toNat = contents.length - 100 := by
        omega
      rw [h100, htn]
      exact List.take_of_length_le (by rw [List.length_drop])

/-- A 300-byte file on disk backing `demoFileTrack`, for the streaming
witnesses. -/
def demoFS : List (String × List Nat) :=
  [("uploads/a.mp3", List.replicate 300 7)]

set_option maxRecDepth 4000 in
/-- Witness for C1: the demo 300-byte file. -/
theorem claimC1_wit :
    streamH demoFileDB demoFS "t2" (some "bytes=100-199") =
      .ranged ("bytes 100-199/" ++ Int.repr ((List.replicate 300 7).length : Int))
        (some 100) (((List.replicate 300 7).drop 100).take 100) :=
  ((claimC1 demoFileDB demoFS "t2" demoFileTrack (List.replicate 300 7)
    rfl rfl rfl (by simp)).1).1

/-- Claim C9: the range branch performs no validation or clamping — a
suffix-form header `bytes=-N` parses its start as `NaN` (the `parseInt`
of an empty split part) yet still yields a 206 with `NaN` echoed in
`Content-Range` and a `NaN` `Content-Length`; a start at or past the end
of file still yields a 206 echoing the out-of-bounds range with a
non-positive `Content-Length`; and no request ever receives a 416. -/
theorem claimC9 :
    (∀ (db : DB) (fsFiles : List (String × List Nat)) (id : String) (t : Track)
        (contents : List Nat) (sfx : String),
      db.tracks.find? (fun x => x.id == id) = some t →
      t.type = "file" →
      assocGet (uploadPath t.path) fsFiles = some contents →
      ∃ e : JSNum, streamH db fsFiles id (some ("bytes=-" ++ sfx)) =
        .ranged ("bytes NaN-" ++ jsNumToString e ++ "/" ++ Int.repr (contents.length : Int))
          none []) ∧
    (∀ (db : DB) (fsFiles : List (String × List Nat)) (id : String) (t : Track)
        (contents : List Nat) (p1 : List Char) (S : Int),
      db.tracks.find? (fun x => x.id == id) = some t →
      t.type = "file" →
      assocGet (uploadPath t.path) fsFiles = some contents →
      parseIntJS p1 = some S →
      '-' ∉ p1 →
      (contents.length : Int) ≤ S →
      streamH db fsFiles id (some (String.mk ("bytes=".data ++ p1 ++ ['-']))) =
        .ranged ("bytes " ++ Int.repr S ++ "-" ++ Int.repr ((contents.length : Int) - 1)
            ++ "/" ++ Int.repr (contents.length : Int))
          (some ((contents.length : Int) - S)) [] ∧
        (contents.length : Int) - S ≤ 0) ∧
    (∀ (db : DB) (fsFiles : List (String × List Nat)) (id : String)
        (rangeHdr : Option String),
      (streamH db fsFiles id rangeHdr).statusCode ≠ 416) := by
  refine ⟨?_, ?_, ?_⟩
  · intro db fsFiles id t contents sfx hfind htype hfs
    have hne : ("bytes=-" ++ sfx) ≠ "" := by
      intro h
      have hd := congrArg String.data h
      simp [String.data_append] at hd
    have hr : strTruthy ("bytes=-" ++ sfx) = true := decide_eq_true hne
    have hdrop : dropFirstOcc "bytes=".data ("bytes=-" ++ sfx).data = '-' :: sfx.data := by
      have h1 : ("bytes=-" ++ sfx).data = "bytes=".data ++ ('-' :: sfx.data) := rfl
      rw [h1, dropFirstOcc_append _ _ (by decide)]
    have h1 : (parseRange ("bytes=-" ++ sfx) (contents.length : Int)).1 = none := by
      unfold parseRange
      rw [hdrop]
      simp [splitOnChar, parseIntJS]
    rcases hE : (parseRange ("bytes=-" ++ sfx) (contents.length : Int)).2 with _ | ev
    · refine ⟨none, ?_⟩
      rw [streamH_ranged _ hfind htype hfs hr, h1, hE]
      rfl
    · refine ⟨some ev, ?_⟩
      rw [streamH_ranged _ hfind htype hfs hr, h1, hE]
      rfl
  · intro db fsFiles id t contents p1 S hfind htype hfs hparse hnotdash hge
    have hne : String.mk ("bytes=".data ++ p1 ++ ['-']) ≠ "" := by
      intro h
      have hd := congrArg String.data h
      simp at hd
    have hr : strTruthy (String.mk ("bytes=".data ++ p1 ++ ['-'])) = true :=
      decide_eq_true hne
    have hdrop : dropFirstOcc "bytes=".data
        (String.mk ("bytes=".data ++ p1 ++ ['-'])).data = p1 ++ ['-'] := by
      show dropFirstOcc "bytes=".data ("bytes=".data ++ p1 ++ ['-']) = p1 ++ ['-']
      rw [List.append_assoc, dropFirstOcc_append _ _ (by decide)]
    have hpr : parseRange (String.mk ("bytes=".data ++ p1 ++ ['-']))
        (contents.length : Int) = (some S, some ((contents.length : Int) - 1)) := by
      unfold parseRange
      rw [hdrop, splitOnChar_append_sep '-' hnotdash]
      simp [hparse]
    rw [streamH_ranged _ hfind htype hfs hr, hpr]
    refine ⟨?_, by omega⟩
    congr 1
    · simp only [jsAdd, jsSub]
      congr 1
      omega
    · show readStreamBody contents (some S) (some ((contents.length : Int) - 1)) = []
      rw [readStreamBody, if_neg]
      intro hcon
      omega
  · intro db fsFiles id rangeHdr
    cases hfind : db.tracks.find? (fun x => x.id == id) with
    | none => simp [streamH, hfind, StreamResult.statusCode]
    | some t =>
      by_cases htype : t.type = "file"
      · cases hfs : assocGet (uploadPath t.path) fsFiles with
        | none => simp [streamH, hfind, htype, hfs, StreamResult.statusCode]
        | some contents =>
          cases rangeHdr with
          | none => simp [streamH, hfind, htype, hfs, StreamResult.statusCode]
          | some r =>
            by_cases hr : strTruthy r
            · simp [streamH, hfind, htype, hfs, hr, StreamResult.statusCode]
            · simp [streamH, hfind, htype, hfs, hr, StreamResult.statusCode]
      · simp [streamH, hfind, htype, StreamResult.statusCode]

set_option maxRecDepth 4000 in
/-- Witness for C9: the suffix header `bytes=-5` against the demo
300-byte file. -/
theorem claimC9_wit :
    ∃ e : JSNum, streamH demoFileDB demoFS "t2" (some ("bytes=-" ++ "5")) =
      .ranged ("bytes NaN-" ++ jsNumToString e ++ "/"
          ++ Int.repr ((List.replicate 300 7).length : Int)) none [] :=
  claimC9.1 demoFileDB demoFS "t2" demoFileTrack (List.replicate 300 7) "5" rfl rfl rfl

end MusicPlayer
